import Mathlib

/-!
# SokujiConfig.h: a verification development

`BlackHole/BlackHole/SokujiConfig.h` is a list of preprocessing directives.
It is embedded here as data (`SokujiConfig_h`), and run by a small
interpreter for the four directive kinds it uses (`#ifndef`, `#define`,
`#undef`, `#endif`) over a macro environment.
-/

namespace Sokuji

/-! ## Preprocessor model -/

/-- Preprocessing tokens of a replacement list.  The header itself only uses
string literals and one decimal integer constant; identifiers and punctuators
may occur in definitions made before the header is read. -/
inductive PPToken where
  | strLit (s : String)
  | intLit (n : Nat)
  | ident (s : String)
  | punct (s : String)
  deriving DecidableEq, Repr

/-- Macro environment: each macro name is undefined (`none`) or defined with a
replacement list (`some body`; an object-like macro without replacement text
has the body `[]`). -/
abbrev MacroEnv := String → Option (List PPToken)

/-- Environment `env` with the entry of `name` replaced by `v`. -/
def MacroEnv.set (env : MacroEnv) (name : String) (v : Option (List PPToken)) : MacroEnv :=
  fun m => if m = name then v else env m

/-- Directive kinds used by the header. -/
inductive Directive where
  | ifndef (name : String)
  | define (name : String) (body : List PPToken)
  | undef (name : String)
  | endif
  deriving DecidableEq, Repr

/-- Preprocessor state while a file is read: the macro environment and the
nesting depth of the conditional group being skipped (`0`: lines are
processed). -/
structure PPState where
  env : MacroEnv
  skip : Nat

/-- One directive line.  In a skipped group only the conditional nesting is
followed; otherwise `#ifndef X` starts skipping when `X` is defined, `#define`
installs the replacement list (taking the place of an earlier definition),
`#undef` removes the definition, `#endif` closes the group. -/
def step (s : PPState) : Directive → PPState
  | .ifndef name =>
    if s.skip = 0 then
      if (s.env name).isSome then { s with skip := 1 } else s
    else { s with skip := s.skip + 1 }
  | .define name body =>
    if s.skip = 0 then { s with env := s.env.set name (some body) } else s
  | .undef name =>
    if s.skip = 0 then { s with env := s.env.set name none } else s
  | .endif =>
    if s.skip = 0 then s else { s with skip := s.skip - 1 }

/-- Processing a file: its directives in order, from the active state. -/
def processFile (ds : List Directive) (env : MacroEnv) : MacroEnv :=
  (ds.foldl step { env := env, skip := 0 }).env

/-- The directives of `SokujiConfig.h`, line by line (lines 5 to 29; comments
are removed before directives are read, so the trailing comment on the
`kPlugIn_Icon` line is not part of its replacement list). -/
def SokujiConfig_h : List Directive :=
  [ Directive.ifndef "SokujiConfig_h",
    Directive.define "SokujiConfig_h" [],
    Directive.undef "kDriver_Name",
    Directive.undef "kPlugIn_BundleID",
    Directive.undef "kPlugIn_Icon",
    Directive.undef "kDevice_Name",
    Directive.undef "kNumber_Of_Channels",
    Directive.define "kDriver_Name" [.strLit "Sokuji"],
    Directive.define "kPlugIn_BundleID" [.strLit "com.sokuji.virtualaudio"],
    Directive.define "kPlugIn_Icon" [.strLit "BlackHole.icns"],
    Directive.define "kDevice_Name" [.strLit "Sokuji Virtual Audio"],
    Directive.define "kNumber_Of_Channels" [.intLit 2],
    Directive.endif ]

/-- Effect of `#include "SokujiConfig.h"` on the macro environment. -/
def includeSokujiConfig (env : MacroEnv) : MacroEnv :=
  processFile SokujiConfig_h env

/-- Value of a macro as an integer constant: defined, and its replacement list
is a single integer constant. -/
def intValue (env : MacroEnv) (name : String) : Option Nat :=
  match env name with
  | some [.intLit n] => some n
  | _ => none

/-- Value of a macro as a string literal. -/
def strValue (env : MacroEnv) (name : String) : Option String :=
  match env name with
  | some [.strLit s] => some s
  | _ => none

/-- Environment with nothing defined. -/
def emptyEnv : MacroEnv := fun _ => none

/-! ## Driver core configured by the header

The header only sets configuration values; the data path they configure
(format negotiator, ring buffer, stream endpoints) is described in the
specification (sections 3, 4 and 7) and is modelled from there. -/

/-- Modelled from the spec: the conditions of section 7 (the driver core is not
part of the header). -/
inductive Condition where
  | FormatUnsupported
  | Overrun
  | Underrun
  | InvalidState
  deriving DecidableEq, Repr

/-- Modelled from the spec: the format descriptor of section 3 (not part of the
header): sample rate, channel count, bits-per-sample. -/
structure FormatDescriptor where
  sampleRate : Nat
  channels : Nat
  bitsPerSample : Nat
  deriving DecidableEq, Repr

/-- Modelled from the spec: the canonical descriptor returned by a successful
negotiation (section 4.2; the negotiator is not part of the header).  The only
value the static configuration fixes is the channel count, so the canonical
descriptor carries the configured channel count and the requested rate and
sample size. -/
def canonicalFormat (configured : Nat) (requested : FormatDescriptor) : FormatDescriptor :=
  { requested with channels := configured }

/-- Modelled from the spec: `negotiate(requested)` of section 4.2, which is not
part of the header.  It compares the request against the statically configured
value, fails with `FormatUnsupported` on a mismatch and returns the canonical
descriptor otherwise; `configured` is the configured channel count, the only
format value the configuration header defines. -/
def negotiate (configured : Nat) (requested : FormatDescriptor) :
    Except Condition FormatDescriptor :=
  if requested.channels = configured then .ok (canonicalFormat configured requested)
  else .error .FormatUnsupported

/-- Modelled from the spec: one interleaved audio frame (section 2; not part of
the header), a sample per channel. -/
abbrev Frame := List Int

/-- Modelled from the spec: the ring buffer of sections 3 and 4.1, which is not
part of the header.  Capacity in frames, channel count, a contiguous frame
store, write and read offsets (frames written and consumed so far; the store
index is the offset modulo the capacity), and the overrun and underrun
counters of section 7. -/
structure RingBuffer where
  capacity : Nat
  channels : Nat
  store : List Frame
  writeOffset : Nat
  readOffset : Nat
  overruns : Nat
  underruns : Nat
  deriving DecidableEq, Repr

namespace RingBuffer

/-- Modelled from the spec: a new ring buffer (section 3; not part of the
header): a store of `capacity` silent frames, both offsets at the start. -/
def create (capacity channels : Nat) : RingBuffer :=
  { capacity := capacity, channels := channels,
    store := List.replicate capacity (List.replicate channels 0),
    writeOffset := 0, readOffset := 0, overruns := 0, underruns := 0 }

/-- Modelled from the spec: the ring buffer invariant of section 3 (not part of
the header): the store has `capacity` slots and the write offset is ahead of
the read offset by at most the capacity. -/
def WF (rb : RingBuffer) : Prop :=
  rb.store.length = rb.capacity ∧ rb.readOffset ≤ rb.writeOffset ∧
    rb.writeOffset - rb.readOffset ≤ rb.capacity

instance (rb : RingBuffer) : Decidable rb.WF := by
  unfold WF; infer_instance

/-- Store after the frames `fs` were put one by one from write offset `w`
into a store of capacity `c`. -/
def storeAfter (c : Nat) : List Frame → Nat → List Frame → List Frame
  | store, _, [] => store
  | store, w, f :: fs => storeAfter c (store.set (w % c) f) (w + 1) fs

/-- Modelled from the spec: the data currently available to a read (section 5;
not part of the header): frames written and not yet read. -/
def available (rb : RingBuffer) : Nat := rb.writeOffset - rb.readOffset

/-- Modelled from the spec: appending one frame (section 4.1 `write`, per
frame; not part of the header).  The frame goes to the slot of the write
offset, the write offset advances, and when the reader is then behind by more
than the capacity the oldest unread frame is dropped. -/
def put (rb : RingBuffer) (f : Frame) : RingBuffer :=
  let w := rb.writeOffset + 1
  { rb with
    store := rb.store.set (rb.writeOffset % rb.capacity) f
    writeOffset := w
    readOffset := if rb.capacity < w - rb.readOffset then w - rb.capacity else rb.readOffset }

/-- Modelled from the spec: what `write` of section 4.1 leaves (not part of the
header): the buffer afterwards and whether the write overran. -/
structure WriteResult where
  buffer : RingBuffer
  overrun : Bool
  deriving DecidableEq, Repr

/-- Modelled from the spec: `write(frames)` of section 4.1 (not part of the
header): appends the frames in order, advancing the write offset and
overwriting the oldest unread data when the reader has fallen behind by more
than the capacity; an overrun is reported to the caller and counted once for
the call. -/
def write (rb : RingBuffer) (frames : List Frame) : WriteResult :=
  let overrun : Bool := decide (rb.capacity < rb.writeOffset + frames.length - rb.readOffset)
  let rb1 := frames.foldl put rb
  { buffer := { rb1 with overruns := rb1.overruns + (if overrun then 1 else 0) },
    overrun := overrun }

/-- Modelled from the spec: a sequence of `write` calls (section 8; not part of
the header), one call after the other. -/
def writeAll (rb : RingBuffer) (writes : List (List Frame)) : RingBuffer :=
  writes.foldl (fun b frames => (b.write frames).buffer) rb

/-- Modelled from the spec: what `read` of section 4.1 leaves (not part of the
header): the buffer afterwards, the frames returned and whether the read was
short. -/
structure ReadResult where
  buffer : RingBuffer
  frames : List Frame
  underrun : Bool
  deriving DecidableEq, Repr

/-- Modelled from the spec: `read(count)` of section 4.1 (not part of the
header): returns up to `count` frames starting at the read offset and advances
it; with fewer frames available it returns those and signals an underrun. -/
def read (rb : RingBuffer) (count : Nat) : ReadResult :=
  let n := min count rb.available
  let underrun : Bool := decide (rb.available < count)
  { buffer := { rb with
      readOffset := rb.readOffset + n
      underruns := rb.underruns + (if underrun then 1 else 0) },
    frames := (List.range n).map fun i => rb.store.getD ((rb.readOffset + i) % rb.capacity) [],
    underrun := underrun }

end RingBuffer

/-- Modelled from the spec: the stream state of section 3 (not part of the
header). -/
inductive StreamState where
  | Stopped
  | Running
  deriving DecidableEq, Repr

/-- Modelled from the spec: a stream endpoint (sections 3 and 4.3; not part of
the header): its state and the format negotiated for it, if any. -/
structure Endpoint where
  state : StreamState
  format : Option FormatDescriptor
  deriving DecidableEq, Repr

/-- Modelled from the spec: the capability set of an endpoint (section 2; not
part of the header). -/
inductive Op where
  | start
  | stop
  | read (count : Nat)
  | write (frames : List Frame)
  deriving DecidableEq, Repr

/-- Modelled from the spec: what a call on an endpoint reports to its caller
(sections 4.1, 4.3 and 7; not part of the header). -/
inductive Outcome where
  | done
  | rejected
  | failed (c : Condition)
  | frames (fs : List Frame) (underrun : Bool)
  | written (overrun : Bool)
  deriving DecidableEq, Repr

/-- Modelled from the spec: what an endpoint call leaves (section 4.3; not part
of the header): the endpoint, the shared ring buffer and an outcome. -/
structure Step where
  endpoint : Endpoint
  buffer : RingBuffer
  outcome : Outcome
  deriving DecidableEq, Repr

/-- Modelled from the spec: the endpoint state machine of section 4.3 (not part
of the header).  `start` is rejected without a negotiated format and otherwise
leaves the endpoint Running; `stop` leaves it Stopped; `read` and `write` work
on the ring buffer while Running and fail with `InvalidState` while Stopped. -/
def Endpoint.step (ep : Endpoint) (rb : RingBuffer) : Op → Step
  | .start =>
    match ep.format with
    | none => { endpoint := ep, buffer := rb, outcome := .rejected }
    | some _ => { endpoint := { ep with state := .Running }, buffer := rb, outcome := .done }
  | .stop => { endpoint := { ep with state := .Stopped }, buffer := rb, outcome := .done }
  | .read count =>
    match ep.state with
    | .Stopped => { endpoint := ep, buffer := rb, outcome := .failed .InvalidState }
    | .Running =>
      let r := rb.read count
      { endpoint := ep, buffer := r.buffer, outcome := .frames r.frames r.underrun }
  | .write frames =>
    match ep.state with
    | .Stopped => { endpoint := ep, buffer := rb, outcome := .failed .InvalidState }
    | .Running =>
      let r := rb.write frames
      { endpoint := ep, buffer := r.buffer, outcome := .written r.overrun }

/-! ## Helper lemmas on the header -/

theorem include_of_guard_undefined (env : MacroEnv) (h : env "SokujiConfig_h" = none) :
    includeSokujiConfig env =
      (((((((((((env.set "SokujiConfig_h" (some [])).set "kDriver_Name" none).set
        "kPlugIn_BundleID" none).set "kPlugIn_Icon" none).set "kDevice_Name" none).set
        "kNumber_Of_Channels" none).set "kDriver_Name" (some [.strLit "Sokuji"])).set
        "kPlugIn_BundleID" (some [.strLit "com.sokuji.virtualaudio"])).set
        "kPlugIn_Icon" (some [.strLit "BlackHole.icns"])).set
        "kDevice_Name" (some [.strLit "Sokuji Virtual Audio"])).set
        "kNumber_Of_Channels" (some [.intLit 2])) := by
  simp [includeSokujiConfig, processFile, SokujiConfig_h, step, h]

theorem include_of_guard_defined (env : MacroEnv) (h : (env "SokujiConfig_h").isSome = true) :
    includeSokujiConfig env = env := by
  simp [includeSokujiConfig, processFile, SokujiConfig_h, step, h]

theorem guard_defined_after_include (env : MacroEnv) :
    (includeSokujiConfig env "SokujiConfig_h").isSome = true := by
  cases h : env "SokujiConfig_h" with
  | none => simp [include_of_guard_undefined env h, MacroEnv.set]
  | some b =>
    have hs : (env "SokujiConfig_h").isSome = true := by simp [h]
    rw [include_of_guard_defined env hs]; exact hs

/-! ## Helper lemmas on the ring buffer -/

namespace RingBuffer

theorem mod_ne_of_lt_capacity {c w j n : Nat} (hj : j < n) (hn : n < j + c) :
    (w + n) % c ≠ (w + j) % c := by
  intro h
  have hle : w + j ≤ w + n := by omega
  have hd : c ∣ (w + n) - (w + j) := (Nat.modEq_iff_dvd' hle).1 h.symm
  have hpos : 0 < (w + n) - (w + j) := by omega
  have := Nat.le_of_dvd hpos hd
  omega

theorem storeAfter_length (c : Nat) (fs : List Frame) :
    ∀ (store : List Frame) (w : Nat), (storeAfter c store w fs).length = store.length := by
  induction fs with
  | nil => intro store w; rfl
  | cons f fs ih => intro store w; simp [storeAfter, ih]

theorem storeAfter_append (c : Nat) (fs gs : List Frame) :
    ∀ (store : List Frame) (w : Nat),
      storeAfter c store w (fs ++ gs) = storeAfter c (storeAfter c store w fs) (w + fs.length) gs := by
  induction fs with
  | nil => intro store w; rfl
  | cons f fs ih =>
    intro store w
    show storeAfter c (store.set (w % c) f) (w + 1) (fs ++ gs) = _
    rw [ih, List.length_cons, show w + 1 + fs.length = w + (fs.length + 1) by omega]
    rfl

theorem storeAfter_getD (c : Nat) (store : List Frame) (w : Nat) (hlen : store.length = c)
    (d : Frame) (fs : List Frame) :
    ∀ j, j < fs.length → fs.length ≤ j + c →
      (storeAfter c store w fs).getD ((w + j) % c) d = fs.getD j d := by
  induction fs using List.reverseRecOn with
  | nil => intro j hj; simp at hj
  | append_singleton fs f ih =>
    intro j hj hc
    simp only [List.length_append, List.length_singleton] at hj hc
    have hcpos : 0 < c := by omega
    rw [storeAfter_append]
    simp only [storeAfter]
    by_cases hjn : j = fs.length
    · subst hjn
      have hlt : (w + fs.length) % c < (storeAfter c store w fs).length := by
        rw [storeAfter_length, hlen]; exact Nat.mod_lt _ hcpos
      simp [List.getD_eq_getElem?_getD, List.getElem?_set, hlt]
    · have hj2 : j < fs.length := by omega
      have hne : (w + fs.length) % c ≠ (w + j) % c := mod_ne_of_lt_capacity hj2 (by omega)
      have := ih j hj2 (by omega)
      simp only [List.getD_eq_getElem?_getD] at this ⊢
      rw [List.getElem?_set_ne hne, this, List.getElem?_append_left hj2]

theorem foldl_put (fs : List Frame) : ∀ rb : RingBuffer,
    rb.writeOffset - rb.readOffset ≤ rb.capacity →
    fs.foldl put rb =
      { rb with
        store := storeAfter rb.capacity rb.store rb.writeOffset fs
        writeOffset := rb.writeOffset + fs.length
        readOffset := max rb.readOffset (rb.writeOffset + fs.length - rb.capacity) } := by
  induction fs with
  | nil =>
    intro rb h
    have : max rb.readOffset (rb.writeOffset - rb.capacity) = rb.readOffset := by omega
    simp [storeAfter, this]
  | cons f fs ih =>
    intro rb h
    rw [List.foldl_cons, ih]
    · simp only [put, storeAfter, List.length_cons]
      congr 1
      · omega
      · split <;> omega
    · simp only [put]
      split <;> omega

theorem range_map_getD (d : Frame) (l : List Frame) (m k : Nat) (h : m + k ≤ l.length) :
    ((List.range k).map fun i => l.getD (m + i) d) = (l.drop m).take k := by
  apply List.ext_getElem
  · simp; omega
  · intro i h1 h2
    simp only [List.length_map, List.length_range] at h1
    have : m + i < l.length := by omega
    simp [List.getD_eq_getElem?_getD, List.getElem?_eq_getElem this]

theorem frames_of_read (rb : RingBuffer) (store0 : List Frame) (w0 m k : Nat) (fs : List Frame)
    (hstore : rb.store = storeAfter rb.capacity store0 w0 fs)
    (hlen : store0.length = rb.capacity) (hr : rb.readOffset = w0 + m)
    (hw : rb.writeOffset = w0 + fs.length) (hcap : fs.length ≤ m + rb.capacity)
    (hk : m + k ≤ fs.length) :
    (rb.read k).frames = (fs.drop m).take k ∧ (rb.read k).underrun = false ∧
      (rb.read k).buffer.readOffset = rb.readOffset + k := by
  have hav : rb.available = fs.length - m := by simp [available, hr, hw]; omega
  have hmin : min k rb.available = k := by rw [hav]; omega
  refine ⟨?_, ?_, ?_⟩
  · simp only [read, hmin]
    rw [← range_map_getD [] fs m k hk]
    apply List.map_congr_left
    intro i hi
    have hi2 : i < k := List.mem_range.1 hi
    rw [hstore, hr, Nat.add_assoc]
    exact storeAfter_getD rb.capacity store0 w0 hlen [] fs (m + i) (by omega) (by omega)
  · simp only [read, hav, decide_eq_false_iff_not]; omega
  · simp only [read, hmin]

theorem write_buffer (rb : RingBuffer) (h : rb.WF) (fs : List Frame) :
    (rb.write fs).buffer =
      { rb with
        store := storeAfter rb.capacity rb.store rb.writeOffset fs
        writeOffset := rb.writeOffset + fs.length
        readOffset := max rb.readOffset (rb.writeOffset + fs.length - rb.capacity)
        overruns := rb.overruns +
          (if rb.capacity < rb.writeOffset + fs.length - rb.readOffset then 1 else 0) } := by
  simp only [write, foldl_put fs rb h.2.2]
  by_cases hc : rb.capacity < rb.writeOffset + fs.length - rb.readOffset <;> simp [hc]

theorem write_WF (rb : RingBuffer) (h : rb.WF) (fs : List Frame) : (rb.write fs).buffer.WF := by
  rw [write_buffer rb h]
  obtain ⟨h1, h2, h3⟩ := h
  refine ⟨?_, ?_, ?_⟩
  · simp only [storeAfter_length, h1]
  · simp only; omega
  · simp only; omega

theorem writeAll_spec (ws : List (List Frame)) : ∀ rb : RingBuffer, rb.WF →
    (rb.writeAll ws).WF ∧
    (rb.writeAll ws).capacity = rb.capacity ∧
    (rb.writeAll ws).store = storeAfter rb.capacity rb.store rb.writeOffset ws.flatten ∧
    (rb.writeAll ws).writeOffset = rb.writeOffset + ws.flatten.length ∧
    (rb.writeAll ws).readOffset
      = max rb.readOffset (rb.writeOffset + ws.flatten.length - rb.capacity) ∧
    rb.overruns ≤ (rb.writeAll ws).overruns ∧
    ((rb.writeAll ws).overruns = rb.overruns ↔ (rb.writeAll ws).readOffset = rb.readOffset) := by
  induction ws with
  | nil =>
    intro rb h
    have := h.2.2
    refine ⟨h, rfl, rfl, rfl, ?_, Nat.le_refl _, ?_⟩
    · simp only [writeAll, List.foldl_nil, List.flatten_nil, List.length_nil]; omega
    · simp [writeAll]
  | cons fs ws ih =>
    intro rb h
    have hb := write_buffer rb h fs
    have c1 : (rb.write fs).buffer.capacity = rb.capacity := by rw [hb]
    have c2 : (rb.write fs).buffer.store
        = storeAfter rb.capacity rb.store rb.writeOffset fs := by rw [hb]
    have c3 : (rb.write fs).buffer.writeOffset = rb.writeOffset + fs.length := by rw [hb]
    have c4 : (rb.write fs).buffer.readOffset
        = max rb.readOffset (rb.writeOffset + fs.length - rb.capacity) := by rw [hb]
    have c5 : (rb.write fs).buffer.overruns = rb.overruns +
        (if rb.capacity < rb.writeOffset + fs.length - rb.readOffset then 1 else 0) := by
      rw [hb]
    obtain ⟨i1, i2, i3, i4, i5, i6, i7⟩ := ih (rb.write fs).buffer (write_WF rb h fs)
    have e : rb.writeAll (fs :: ws) = (rb.write fs).buffer.writeAll ws := rfl
    rw [e]
    rw [c1, c2, c3] at i3
    rw [c3] at i4
    rw [c1, c3, c4] at i5
    rw [c5] at i6
    rw [c5, c4] at i7
    obtain ⟨h1, h2, h3⟩ := h
    refine ⟨i1, i2.trans c1, ?_, ?_, ?_, ?_, ?_⟩
    · rw [i3, List.flatten_cons, storeAfter_append]
    · rw [i4, List.flatten_cons, List.length_append]; omega
    · rw [i5, List.flatten_cons, List.length_append]; omega
    · split at i6 <;> omega
    · rw [i5] at i7 ⊢
      by_cases hc : rb.capacity < rb.writeOffset + fs.length - rb.readOffset
      · simp only [hc, if_true] at i6 i7; omega
      · simp only [hc, if_false] at i6 i7; omega

theorem create_WF (capacity channels : Nat) : (create capacity channels).WF := by
  simp [WF, create]

end RingBuffer

/-! ## Contract of the header -/

/-- C1: from every macro environment in which `SokujiConfig_h` is not defined,
and whatever `kNumber_Of_Channels` was before (`prior`: undefined or any
replacement list), after `SokujiConfig.h` the macro `kNumber_Of_Channels` is
defined and its value is the integer constant 2. -/
theorem channels_defined_as_two (env : MacroEnv) (prior : Option (List PPToken))
    (h : env "SokujiConfig_h" = none) :
    (includeSokujiConfig (env.set "kNumber_Of_Channels" prior) "kNumber_Of_Channels").isSome
        = true ∧
      includeSokujiConfig (env.set "kNumber_Of_Channels" prior) "kNumber_Of_Channels"
        = some [.intLit 2] ∧
      intValue (includeSokujiConfig (env.set "kNumber_Of_Channels" prior))
        "kNumber_Of_Channels" = some 2 := by
  have hg : (env.set "kNumber_Of_Channels" prior) "SokujiConfig_h" = none := by
    simp [MacroEnv.set, h]
  simp [intValue, include_of_guard_undefined _ hg, MacroEnv.set]

theorem channels_defined_as_two_witness :
    emptyEnv "SokujiConfig_h" = none ∧
      intValue (includeSokujiConfig (emptyEnv.set "kNumber_Of_Channels" (some [.intLit 16])))
        "kNumber_Of_Channels" = some 2 :=
  ⟨rfl, (channels_defined_as_two emptyEnv (some [.intLit 16]) rfl).2.2⟩

/-- C2: from every two macro environments in which `SokujiConfig_h` is not
defined (so whatever the identity macros were before), after `SokujiConfig.h`
the identity is `kDriver_Name = "Sokuji"`,
`kPlugIn_BundleID = "com.sokuji.virtualaudio"`,
`kPlugIn_Icon = "BlackHole.icns"`, `kDevice_Name = "Sokuji Virtual Audio"`;
the two runs agree on the four names; the three mandatory macros are
defined. -/
theorem device_identity_constant (env₁ env₂ : MacroEnv)
    (h₁ : env₁ "SokujiConfig_h" = none) (h₂ : env₂ "SokujiConfig_h" = none) :
    (includeSokujiConfig env₁ "kDriver_Name" = some [.strLit "Sokuji"] ∧
      includeSokujiConfig env₁ "kPlugIn_BundleID" = some [.strLit "com.sokuji.virtualaudio"] ∧
      includeSokujiConfig env₁ "kPlugIn_Icon" = some [.strLit "BlackHole.icns"] ∧
      includeSokujiConfig env₁ "kDevice_Name" = some [.strLit "Sokuji Virtual Audio"]) ∧
    (∀ name ∈ ["kDriver_Name", "kPlugIn_BundleID", "kPlugIn_Icon", "kDevice_Name"],
      includeSokujiConfig env₁ name = includeSokujiConfig env₂ name) ∧
    (∀ name ∈ ["kDriver_Name", "kPlugIn_BundleID", "kPlugIn_Icon"],
      (includeSokujiConfig env₁ name).isSome = true) := by
  rw [include_of_guard_undefined env₁ h₁, include_of_guard_undefined env₂ h₂]
  simp [MacroEnv.set]

theorem device_identity_constant_witness :
    emptyEnv "SokujiConfig_h" = none ∧
      (emptyEnv.set "kDriver_Name" (some [.strLit "BlackHole"])) "SokujiConfig_h" = none ∧
      strValue (includeSokujiConfig (emptyEnv.set "kDriver_Name" (some [.strLit "BlackHole"])))
        "kDriver_Name" = some "Sokuji" ∧
      includeSokujiConfig (emptyEnv.set "kDriver_Name" (some [.strLit "BlackHole"]))
        "kDevice_Name" = includeSokujiConfig emptyEnv "kDevice_Name" :=
  have h := device_identity_constant
    (emptyEnv.set "kDriver_Name" (some [.strLit "BlackHole"])) emptyEnv rfl rfl
  ⟨rfl, rfl, by simp [strValue, h.1.1], h.2.1 "kDevice_Name" (by simp)⟩

/-- C3: for every macro environment and every macro name other than
`kDriver_Name`, `kPlugIn_BundleID`, `kPlugIn_Icon`, `kDevice_Name`,
`kNumber_Of_Channels` and the include guard `SokujiConfig_h`, the entry of
that name after `SokujiConfig.h` is its entry before. -/
theorem other_macros_unchanged (env : MacroEnv) (name : String)
    (hname : name ∉ ["kDriver_Name", "kPlugIn_BundleID", "kPlugIn_Icon", "kDevice_Name",
      "kNumber_Of_Channels", "SokujiConfig_h"]) :
    includeSokujiConfig env name = env name := by
  simp only [List.mem_cons, List.mem_singleton, List.not_mem_nil, or_false, not_or] at hname
  obtain ⟨h1, h2, h3, h4, h5, h6⟩ := hname
  cases h : env "SokujiConfig_h" with
  | none => simp [include_of_guard_undefined env h, MacroEnv.set, h1, h2, h3, h4, h5, h6]
  | some b => rw [include_of_guard_defined env (by simp [h])]

theorem other_macros_unchanged_witness :
    includeSokujiConfig (emptyEnv.set "kSampleRates" (some [.intLit 48000])) "kSampleRates"
      = some [.intLit 48000] :=
  other_macros_unchanged (emptyEnv.set "kSampleRates" (some [.intLit 48000])) "kSampleRates"
    (by decide)

/-- C8: include guard.  From an environment where `SokujiConfig_h` is
undefined the header leaves it defined; from an environment where it is
defined the header changes nothing; so two inclusions in a row equal one, and
after a first inclusion a new definition `v` of a macro other than the guard
(any of the five) is left as it is by a second inclusion. -/
theorem include_guard_behaviour :
    (∀ env : MacroEnv, env "SokujiConfig_h" = none →
      (includeSokujiConfig env "SokujiConfig_h").isSome = true) ∧
    (∀ env : MacroEnv, (env "SokujiConfig_h").isSome = true → includeSokujiConfig env = env) ∧
    (∀ env : MacroEnv, includeSokujiConfig (includeSokujiConfig env) = includeSokujiConfig env) ∧
    (∀ (env : MacroEnv) (v : Option (List PPToken)),
      ∀ name ∈ ["kDriver_Name", "kPlugIn_BundleID", "kPlugIn_Icon", "kDevice_Name",
        "kNumber_Of_Channels"],
      includeSokujiConfig ((includeSokujiConfig env).set name v)
        = (includeSokujiConfig env).set name v) := by
  refine ⟨fun env _ => guard_defined_after_include env, include_of_guard_defined,
    fun env => include_of_guard_defined _ (guard_defined_after_include env), ?_⟩
  intro env v name hname
  apply include_of_guard_defined
  have hne : ¬ ("SokujiConfig_h" = name) := by
    rintro rfl
    simp at hname
  simp only [MacroEnv.set, hne, if_false]
  exact guard_defined_after_include env

/-! ## The driver core configured by the header -/

/-- C4: from every macro environment in which `SokujiConfig_h` is not defined,
the channel count configured by `SokujiConfig.h` is 2, and for every requested
format negotiation against it fails with `FormatUnsupported` when the
requested channel count is not 2 and succeeds with the canonical descriptor
(2 channels) when it is 2. -/
theorem negotiate_against_configured_channels (env : MacroEnv) (requested : FormatDescriptor)
    (h : env "SokujiConfig_h" = none) :
    ∃ configured, intValue (includeSokujiConfig env) "kNumber_Of_Channels" = some configured ∧
      configured = 2 ∧
      (requested.channels ≠ 2 → negotiate configured requested = .error .FormatUnsupported) ∧
      (requested.channels = 2 →
        negotiate configured requested = .ok (canonicalFormat configured requested) ∧
        (canonicalFormat configured requested).channels = 2) := by
  refine ⟨2, ?_, rfl, ?_, ?_⟩
  · simp [intValue, include_of_guard_undefined env h, MacroEnv.set]
  · intro hne
    simp [negotiate, hne]
  · intro heq
    simp [negotiate, heq, canonicalFormat]

theorem negotiate_against_configured_channels_witness :
    emptyEnv "SokujiConfig_h" = none ∧
      negotiate 2 { sampleRate := 48000, channels := 16, bitsPerSample := 32 }
        = .error .FormatUnsupported ∧
      negotiate 2 { sampleRate := 48000, channels := 2, bitsPerSample := 32 }
        = .ok { sampleRate := 48000, channels := 2, bitsPerSample := 32 } := by
  obtain ⟨c, _, hc, hbad, _⟩ := negotiate_against_configured_channels emptyEnv
    { sampleRate := 48000, channels := 16, bitsPerSample := 32 } rfl
  subst hc
  exact ⟨rfl, hbad (by decide), rfl⟩

/-- C5: ring buffer round trip.  For every well-formed ring buffer holding no
unread frame, and so for every new ring buffer of every capacity, and every
sequence of writes whose total number of frames does not exceed the capacity,
a read of that many frames returns exactly the written frames in the order
written, is not short, and no overrun was counted; writing 256 frames into a
new 256-frame buffer and reading 256 returns the same sequence. -/
theorem round_trip_within_capacity :
    (∀ (rb : RingBuffer) (writes : List (List Frame)), rb.WF → rb.available = 0 →
      writes.flatten.length ≤ rb.capacity →
      ((rb.writeAll writes).read writes.flatten.length).frames = writes.flatten ∧
      ((rb.writeAll writes).read writes.flatten.length).underrun = false ∧
      (rb.writeAll writes).overruns = rb.overruns) ∧
    (∀ (capacity channels : Nat) (writes : List (List Frame)),
      writes.flatten.length ≤ capacity →
      (((RingBuffer.create capacity channels).writeAll writes).read
        writes.flatten.length).frames = writes.flatten) ∧
    (∀ (channels : Nat) (frames : List Frame), frames.length = 256 →
      (((RingBuffer.create 256 channels).write frames).buffer.read 256).frames = frames) := by
  have general : ∀ (rb : RingBuffer) (writes : List (List Frame)), rb.WF → rb.available = 0 →
      writes.flatten.length ≤ rb.capacity →
      ((rb.writeAll writes).read writes.flatten.length).frames = writes.flatten ∧
      ((rb.writeAll writes).read writes.flatten.length).underrun = false ∧
      (rb.writeAll writes).overruns = rb.overruns := by
    intro rb writes hwf hav hcap
    obtain ⟨_, s2, s3, s4, s5, _, s7⟩ := RingBuffer.writeAll_spec writes rb hwf
    obtain ⟨h1, h2, _⟩ := hwf
    simp only [RingBuffer.available] at hav
    have hr : (rb.writeAll writes).readOffset = rb.readOffset := by rw [s5]; omega
    have key := RingBuffer.frames_of_read (rb.writeAll writes) rb.store rb.writeOffset 0
      writes.flatten.length writes.flatten (by rw [s3, s2]) (by rw [s2, h1])
      (by rw [hr]; omega) s4 (by omega) (by omega)
    refine ⟨?_, key.2.1, s7.2 hr⟩
    rw [key.1, List.drop_zero, List.take_length]
  refine ⟨general, ?_, ?_⟩
  · intro capacity channels writes hcap
    exact (general (RingBuffer.create capacity channels) writes
      (RingBuffer.create_WF capacity channels) rfl hcap).1
  · intro channels frames hlen
    have := (general (RingBuffer.create 256 channels) [frames]
      (RingBuffer.create_WF 256 channels) rfl
      (by show [frames].flatten.length ≤ 256; simp [hlen])).1
    simpa [RingBuffer.writeAll, hlen] using this

theorem round_trip_within_capacity_witness :
    [[[1, -1]], [[2, -2], [3, -3]]].flatten.length ≤ 4 ∧
      (((RingBuffer.create 4 2).writeAll [[[1, -1]], [[2, -2], [3, -3]]]).read 3).frames
        = [[1, -1], [2, -2], [3, -3]] :=
  ⟨by decide, round_trip_within_capacity.2.1 4 2 [[[1, -1]], [[2, -2], [3, -3]]] (by decide)⟩

/-- C6: overrun is drop-oldest.  For every well-formed ring buffer of capacity
`c`, after writes of more than `c` frames in total an overrun was counted, the
buffer holds `c` unread frames and a read of `c` returns the most recent `c`
frames written, in order; a single write of more than `c` frames reports the
overrun and counts it once; writing 10 frames into a new 8-frame buffer and
reading 8 returns frames 3 to 10 with one overrun counted. -/
theorem overrun_keeps_most_recent :
    (∀ (rb : RingBuffer) (writes : List (List Frame)), rb.WF →
      rb.capacity < writes.flatten.length →
      rb.overruns < (rb.writeAll writes).overruns ∧
      (rb.writeAll writes).available = rb.capacity ∧
      ((rb.writeAll writes).read rb.capacity).frames
        = writes.flatten.drop (writes.flatten.length - rb.capacity) ∧
      ((rb.writeAll writes).read rb.capacity).underrun = false) ∧
    (∀ (rb : RingBuffer) (frames : List Frame), rb.WF → rb.capacity < frames.length →
      (rb.write frames).overrun = true ∧
      (rb.write frames).buffer.overruns = rb.overruns + 1) ∧
    (∀ (channels : Nat) (frames : List Frame), frames.length = 10 →
      (((RingBuffer.create 8 channels).write frames).buffer.read 8).frames = frames.drop 2 ∧
      ((RingBuffer.create 8 channels).write frames).overrun = true ∧
      ((RingBuffer.create 8 channels).write frames).buffer.overruns = 1) := by
  have general : ∀ (rb : RingBuffer) (writes : List (List Frame)), rb.WF →
      rb.capacity < writes.flatten.length →
      rb.overruns < (rb.writeAll writes).overruns ∧
      (rb.writeAll writes).available = rb.capacity ∧
      ((rb.writeAll writes).read rb.capacity).frames
        = writes.flatten.drop (writes.flatten.length - rb.capacity) ∧
      ((rb.writeAll writes).read rb.capacity).underrun = false := by
    intro rb writes hwf hcap
    obtain ⟨_, s2, s3, s4, s5, s6, s7⟩ := RingBuffer.writeAll_spec writes rb hwf
    obtain ⟨h1, h2, h3⟩ := hwf
    have hr : (rb.writeAll writes).readOffset
        = rb.writeOffset + (writes.flatten.length - rb.capacity) := by rw [s5]; omega
    have key := RingBuffer.frames_of_read (rb.writeAll writes) rb.store rb.writeOffset
      (writes.flatten.length - rb.capacity) rb.capacity writes.flatten
      (by rw [s3, s2]) (by rw [s2, h1]) hr s4 (by rw [s2]; omega) (by omega)
    refine ⟨?_, ?_, ?_, key.2.1⟩
    · have hne : (rb.writeAll writes).readOffset ≠ rb.readOffset := by rw [hr]; omega
      have := mt s7.1 hne
      omega
    · simp only [RingBuffer.available, hr, s4]; omega
    · rw [key.1]
      apply List.take_of_length_le
      rw [List.length_drop]; omega
  have single : ∀ (rb : RingBuffer) (frames : List Frame), rb.WF →
      rb.capacity < frames.length →
      (rb.write frames).overrun = true ∧
      (rb.write frames).buffer.overruns = rb.overruns + 1 := by
    intro rb frames hwf hcap
    have hov : rb.capacity < rb.writeOffset + frames.length - rb.readOffset := by
      have := hwf.2.1
      omega
    refine ⟨by simp [RingBuffer.write, hov], ?_⟩
    rw [RingBuffer.write_buffer rb hwf]
    simp [hov]
  refine ⟨general, single, ?_⟩
  intro channels frames hlen
  have g := general (RingBuffer.create 8 channels) [frames] (RingBuffer.create_WF 8 channels)
    (by show 8 < [frames].flatten.length; simp [hlen])
  have s := single (RingBuffer.create 8 channels) frames (RingBuffer.create_WF 8 channels)
    (by show 8 < frames.length; omega)
  refine ⟨?_, s.1, ?_⟩
  · simpa [RingBuffer.writeAll, hlen, RingBuffer.create] using g.2.2.1
  · simpa [RingBuffer.create] using s.2

theorem overrun_keeps_most_recent_witness :
    [[1], [2], [3], [4], [5], [6], [7], [8], [9], [10]].length = 10 ∧
      (((RingBuffer.create 8 1).write
        [[1], [2], [3], [4], [5], [6], [7], [8], [9], [10]]).buffer.read 8).frames
        = [[3], [4], [5], [6], [7], [8], [9], [10]] ∧
      ((RingBuffer.create 8 1).write
        [[1], [2], [3], [4], [5], [6], [7], [8], [9], [10]]).buffer.overruns = 1 :=
  have h := overrun_keeps_most_recent.2.2 1
    [[1], [2], [3], [4], [5], [6], [7], [8], [9], [10]] rfl
  ⟨rfl, h.1, h.2.2⟩

/-- C7: endpoint state machine.  On every Stopped endpoint every read and
every write fails with `InvalidState` and leaves the endpoint and the ring
buffer as they were; a call that changes the state is `start` from Stopped to
Running or `stop` from Running to Stopped; `start` without a negotiated format
is rejected; with a negotiated format `start` leaves Stopped for Running, and
`stop` leaves Running for Stopped. -/
theorem stopped_endpoint_invalid_state :
    (∀ (ep : Endpoint) (rb : RingBuffer) (count : Nat), ep.state = .Stopped →
      ep.step rb (.read count)
        = { endpoint := ep, buffer := rb, outcome := .failed .InvalidState }) ∧
    (∀ (ep : Endpoint) (rb : RingBuffer) (frames : List Frame), ep.state = .Stopped →
      ep.step rb (.write frames)
        = { endpoint := ep, buffer := rb, outcome := .failed .InvalidState }) ∧
    (∀ (ep : Endpoint) (rb : RingBuffer) (op : Op), (ep.step rb op).endpoint.state ≠ ep.state →
      (ep.state = .Stopped ∧ op = .start ∧ (ep.step rb op).endpoint.state = .Running) ∨
      (ep.state = .Running ∧ op = .stop ∧ (ep.step rb op).endpoint.state = .Stopped)) ∧
    (∀ (ep : Endpoint) (rb : RingBuffer), ep.format = none →
      ep.step rb .start = { endpoint := ep, buffer := rb, outcome := .rejected }) ∧
    (∀ (ep : Endpoint) (rb : RingBuffer), ep.state = .Stopped → ep.format.isSome = true →
      (ep.step rb .start).endpoint.state = .Running ∧ (ep.step rb .start).outcome = .done) ∧
    (∀ (ep : Endpoint) (rb : RingBuffer), ep.state = .Running →
      (ep.step rb .stop).endpoint.state = .Stopped) := by
  refine ⟨?_, ?_, ?_, ?_, ?_, ?_⟩
  · intro ep rb count h
    simp [Endpoint.step, h]
  · intro ep rb frames h
    simp [Endpoint.step, h]
  · intro ep rb op h
    cases op with
    | start =>
      cases hf : ep.format with
      | none => simp [Endpoint.step, hf] at h
      | some d =>
        cases hs : ep.state with
        | Stopped => simp [Endpoint.step, hf]
        | Running => simp [Endpoint.step, hf, hs] at h
    | stop =>
      cases hs : ep.state with
      | Stopped => simp [Endpoint.step, hs] at h
      | Running => simp [Endpoint.step]
    | read count =>
      cases hs : ep.state <;> simp [Endpoint.step, hs] at h
    | write frames =>
      cases hs : ep.state <;> simp [Endpoint.step, hs] at h
  · intro ep rb h
    simp [Endpoint.step, h]
  · intro ep rb _ hf
    cases hfmt : ep.format with
    | none => simp [hfmt] at hf
    | some d => simp [Endpoint.step, hfmt]
  · intro ep rb _
    simp [Endpoint.step]

theorem stopped_endpoint_invalid_state_witness :
    (Endpoint.step { state := .Stopped, format := none } (RingBuffer.create 8 2)
        (.write [[1, 2]])).outcome = .failed .InvalidState ∧
      (Endpoint.step { state := .Stopped, format := none } (RingBuffer.create 8 2)
        (.write [[1, 2]])).buffer = RingBuffer.create 8 2 := by
  have h := stopped_endpoint_invalid_state.2.1 { state := .Stopped, format := none }
    (RingBuffer.create 8 2) [[1, 2]] rfl
  rw [h]
  exact ⟨rfl, rfl⟩

theorem include_guard_behaviour_witness :
    includeSokujiConfig ((includeSokujiConfig emptyEnv).set "kNumber_Of_Channels"
        (some [.intLit 16])) "kNumber_Of_Channels" = some [.intLit 16] := by
  rw [include_guard_behaviour.2.2.2 emptyEnv (some [.intLit 16]) "kNumber_Of_Channels"
    (by simp)]
  simp [MacroEnv.set]

end Sokuji
